import Mathlib

/-!
# Verification of the bot-zeus arbitrage core

Shallow embedding, in Lean 4, of the parts of the `bot-zeus` repository that
the specification's testable claims are about:

* `utils/optimization_utils.py` — the closed-form optimal-size solver
  `calcular_quantidade_otima`, which computes with Python `decimal` arithmetic
  at `getcontext().prec = 50` (ROUND_HALF_EVEN).  We model that arithmetic
  exactly: a decimal value is an integer mantissa times a power of ten, every
  arithmetic operation produces the exact result rounded half-even to 50
  significant digits, and `Decimal.sqrt` is the correctly rounded square root.
* `utils/nonce_utils.py` — the `NonceManager` state machine.
* `src/flash_loan.py` (`iniciar_flash_loan`) and
  `utils/dex_operations.py` (`_enviar_e_aguardar_transacao`) — nonce effects
  of the two transaction-submission paths.
* `utils/rpc_utils.py` — `try_failover` over a list of candidate endpoints.
* `utils/liquidity_utils.py` — V3 path encoding, route-candidate generation,
  the quoting entry points and their TTL quote cache.

Network reads, contract calls and clocks are modelled as explicit oracle
parameters; exceptions raised by those calls are `Option`/`none` results.
-/

namespace BotZeus

/-! ## Python `decimal` arithmetic at precision 50, ROUND_HALF_EVEN

`optimization_utils.py` sets `getcontext().prec = 50` and computes with
`Decimal`.  A `Decimal` value is modelled by its exact value `m * 10 ^ e`;
each operation computes the exact rational result and rounds it half-even to
50 significant digits, which is precisely the `decimal` semantics at the
value level (construction from `int` is exact; `+`, `-`, `*`, `/` and `sqrt`
are correctly rounded; comparison and `int()` depend only on the value). -/

/-- Number of decimal digits of `n` (fuel-based so that it kernel-reduces). -/
def digLenAux : ℕ → ℕ → ℕ
  | 0, _ => 0
  | fuel + 1, n => if n < 10 then 1 else digLenAux fuel (n / 10) + 1

def digLen (n : ℕ) : ℕ := digLenAux 1000 n

/-- A decimal floating value `m * 10 ^ e`. -/
structure Dec where
  m : ℤ
  e : ℤ
  deriving DecidableEq, Repr

/-- `x ≤ n / d * 10 ^ k` for `d > 0`, decided with integer arithmetic. -/
def leScaled (x : ℤ) (n d : ℤ) (k : ℤ) : Bool :=
  if 0 ≤ k then x * d ≤ n * (10 : ℤ) ^ k.toNat
  else x * d * (10 : ℤ) ^ (-k).toNat ≤ n

/-- Decimal exponent of the positive rational `n / d`: the unique `E` with
`10 ^ E ≤ n / d < 10 ^ (E + 1)`. -/
def decExpQ (n d : ℤ) : ℤ :=
  let g : ℤ := (digLen n.toNat : ℤ) - (digLen d.toNat : ℤ)
  if leScaled 1 n d (-g) then g else g - 1

/-- Round-half-even to 50 significant digits of the positive rational
`n / d` (`n, d > 0`). -/
def roundQpos (n d : ℤ) : Dec :=
  let E := decExpQ n d
  let k := 49 - E
  let a : ℤ := if 0 ≤ k then n * (10 : ℤ) ^ k.toNat else n
  let b : ℤ := if 0 ≤ k then d else d * (10 : ℤ) ^ (-k).toNat
  let s0 := a / b
  let r := a - b * s0
  let s : ℤ :=
    if b < 2 * r then s0 + 1
    else if 2 * r < b then s0
    else if s0 % 2 = 0 then s0 else s0 + 1
  ⟨s, E - 49⟩

/-- Round-half-even to 50 significant digits of `n / d` (`d > 0`). -/
def roundQ (n d : ℤ) : Dec :=
  if n = 0 then ⟨0, 0⟩
  else if 0 < n then roundQpos n d
  else
    let r := roundQpos (-n) d
    ⟨-r.m, r.e⟩

/-- Exact value of a `Dec` as `(numerator, denominator)`, denominator a
power of ten. -/
def Dec.toFrac (x : Dec) : ℤ × ℤ :=
  if 0 ≤ x.e then (x.m * (10 : ℤ) ^ x.e.toNat, 1) else (x.m, (10 : ℤ) ^ (-x.e).toNat)

/-- `Decimal(int)`: exact, never rounded at construction. -/
def ofInt (n : ℤ) : Dec := ⟨n, 0⟩

/-- `Decimal` multiplication at precision 50. -/
def mulD (x y : Dec) : Dec :=
  let e := x.e + y.e
  if 0 ≤ e then roundQ (x.m * y.m * (10 : ℤ) ^ e.toNat) 1
  else roundQ (x.m * y.m) ((10 : ℤ) ^ (-e).toNat)

/-- `Decimal` addition at precision 50. -/
def addD (x y : Dec) : Dec :=
  let e := min x.e y.e
  let n := x.m * (10 : ℤ) ^ (x.e - e).toNat + y.m * (10 : ℤ) ^ (y.e - e).toNat
  if 0 ≤ e then roundQ (n * (10 : ℤ) ^ e.toNat) 1
  else roundQ n ((10 : ℤ) ^ (-e).toNat)

/-- `Decimal` subtraction at precision 50. -/
def subD (x y : Dec) : Dec := addD x ⟨-y.m, y.e⟩

/-- `Decimal` division at precision 50 (divisor nonzero in every use). -/
def divD (x y : Dec) : Dec :=
  let e := x.e - y.e
  let nd : ℤ × ℤ :=
    if 0 ≤ e then (x.m * (10 : ℤ) ^ e.toNat, y.m) else (x.m, y.m * (10 : ℤ) ^ (-e).toNat)
  if 0 ≤ nd.2 then roundQ nd.1 nd.2 else roundQ (-nd.1) (-nd.2)

/-- Integer square root by Newton iteration with structural fuel (the fuel is
ample for every number below `10 ^ 600`). -/
def isqrtAux : ℕ → ℕ → ℕ → ℕ
  | 0, _, g => g
  | fuel + 1, n, g =>
    let g' := (g + n / g) / 2
    if g ≤ g' then g else isqrtAux fuel n g'

def isqrt (n : ℕ) : ℕ := if n ≤ 1 then n else isqrtAux 2000 n n

/-- `Decimal.sqrt`: correctly rounded square root at precision 50
(half-even), for nonnegative arguments. -/
def sqrtD (x : Dec) : Dec :=
  if x.m ≤ 0 then ⟨0, 0⟩
  else
    let nd := x.toFrac
    let E := (decExpQ nd.1 nd.2).fdiv 2
    let g := 98 - 2 * E
    -- the scaled value `x * 10 ^ g` lies in `[10^98, 10^100)`
    let snd : ℤ × ℤ :=
      if 0 ≤ g then (nd.1 * (10 : ℤ) ^ g.toNat, nd.2) else (nd.1, nd.2 * (10 : ℤ) ^ (-g).toNat)
    let s0 : ℤ := (isqrt (snd.1 / snd.2).toNat : ℤ)
    let s : ℤ :=
      if (2 * s0 + 1) ^ 2 * snd.2 < 4 * snd.1 then s0 + 1
      else if 4 * snd.1 < (2 * s0 + 1) ^ 2 * snd.2 then s0
      else if s0 % 2 = 0 then s0 else s0 + 1
    ⟨s, E - 49⟩

/-- Python `int()`: truncation toward zero. -/
def pyInt (x : Dec) : ℤ :=
  if 0 ≤ x.e then x.m * (10 : ℤ) ^ x.e.toNat
  else if 0 ≤ x.m then ((x.m.toNat / (10 : ℕ) ^ (-x.e).toNat : ℕ) : ℤ)
  else -(((-x.m).toNat / (10 : ℕ) ^ (-x.e).toNat : ℕ) : ℤ)

/-- Value-level `x ≤ 0` (the sign of the mantissa). -/
def Dec.nonpos (x : Dec) : Prop := x.m ≤ 0

instance (x : Dec) : Decidable x.nonpos := by unfold Dec.nonpos; infer_instance

/-! ## The optimal-size solver (`utils/optimization_utils.py`)

`calcular_quantidade_otima(reserva_in_dex_a, reserva_out_dex_a,
reserva_in_dex_b, reserva_out_dex_b)` computes, in `Decimal` arithmetic,

    numerador   = (r_in_a * r_out_b * r_in_b * r_out_a).sqrt()
                  - (r_in_a * r_out_b)
    denominador = r_in_a + r_in_b

returns `0` when `numerador <= 0 or denominador <= 0`, and otherwise
`int(numerador / denominador)`.  Reserves are the nonnegative integers read
from the chain.  The multiplications associate to the left exactly as in the
Python source. -/

/-- The `numerador` value computed by `calcular_quantidade_otima`. -/
def numeradorD (rInA rOutA rInB rOutB : ℕ) : Dec :=
  subD
    (sqrtD (mulD (mulD (mulD (ofInt rInA) (ofInt rOutB)) (ofInt rInB)) (ofInt rOutA)))
    (mulD (ofInt rInA) (ofInt rOutB))

/-- The `denominador` value computed by `calcular_quantidade_otima`. -/
def denominadorD (rInA rInB : ℕ) : Dec := addD (ofInt rInA) (ofInt rInB)

def calcular_quantidade_otima (rInA rOutA rInB rOutB : ℕ) : ℤ :=
  if (numeradorD rInA rOutA rInB rOutB).nonpos ∨ (denominadorD rInA rInB).nonpos then 0
  else pyInt (divD (numeradorD rInA rOutA rInB rOutB) (denominadorD rInA rInB))

/-- Fee-free constant-product swap output `reserveOut * x / (reserveIn + x)`
(integer floor), used to simulate the two legs of an arbitrage. -/
def simLeg (reserveIn reserveOut x : ℕ) : ℕ := reserveOut * x / (reserveIn + x)

end BotZeus

namespace BotZeus

/-! ## Claims C1-C3: behaviour of the solver -/

set_option maxRecDepth 40000 in
/-- C1, as stated, is false: the spec reads the guard as the closed-form
(exact) numerator `sqrt(Rin_a*Rout_b*Rin_b*Rout_a) - Rin_a*Rout_b`, but the
code evaluates it in 50-significant-digit decimal arithmetic.  At the
reserves below the exact numerator is nonpositive (the product under the
root is `(Rin_a*Rout_b)^2 - 8*Rin_a*Rout_b`, strictly below the square),
and the denominator is positive, yet rounding makes the computed numerador
positive and the function returns `2`, not `0`. -/
theorem C1_closed_form_guard_counterexample :
    Real.sqrt ((14 : ℝ) * 443163253688552190243502692224762247572900435597912 * 20 *
          310214277581986533170451884557333573301030304918538) -
        14 * 443163253688552190243502692224762247572900435597912 ≤ 0 ∧
      calcular_quantidade_otima 14 310214277581986533170451884557333573301030304918538 20
          443163253688552190243502692224762247572900435597912 = 2 := by
  constructor
  · have h : (14 : ℝ) * 443163253688552190243502692224762247572900435597912 * 20 *
        310214277581986533170451884557333573301030304918538 ≤
        (14 * 443163253688552190243502692224762247572900435597912 : ℝ) ^ 2 := by
      norm_num
    have h2 := Real.sqrt_le_sqrt h
    rw [Real.sqrt_sq (by positivity)] at h2
    linarith
  · decide

/-- C1 (amended): if the numerador computed by the 50-digit decimal
arithmetic, or the computed denominador, is nonpositive, then
`calcular_quantidade_otima` returns `0`. -/
theorem C1_computed_guard_returns_zero (rInA rOutA rInB rOutB : ℕ)
    (h : (numeradorD rInA rOutA rInB rOutB).nonpos ∨ (denominadorD rInA rInB).nonpos) :
    calcular_quantidade_otima rInA rOutA rInB rOutB = 0 := by
  unfold calcular_quantidade_otima
  exact if_pos h

/-- Witness for `C1_computed_guard_returns_zero` at reserves `(1, 1, 1, 1)`. -/
theorem C1_computed_guard_returns_zero_witness :
    ((numeradorD 1 1 1 1).nonpos ∨ (denominadorD 1 1).nonpos) ∧
      calcular_quantidade_otima 1 1 1 1 = 0 :=
  ⟨Or.inl (by decide), C1_computed_guard_returns_zero 1 1 1 1 (Or.inl (by decide))⟩

/-- C2: at Scenario A's reserves — buy pool `(1,000,000 / 2,000,000)`, sell
pool `(2,000,000 / 1,000,000)`, passed by the Scanner as
`(compra[0], compra[1], venda[1], venda[0])` — the Solver returns `0`, even
though a strictly profitable trade exists (simulating both constant-product
legs at input `333,333` returns more than was put in).  This contradicts the
function's own documentation (`Retorna 0 se não houver uma oportunidade de
arbitragem`): the implemented formula subtracts `r_in_a*r_out_b` and divides
by `r_in_a + r_in_b` where the profit-maximising derivation requires
`r_in_a*r_in_b` and `r_in_b + r_out_a`. -/
theorem C2_scenario_A_solver_returns_zero :
    calcular_quantidade_otima 1000000 2000000 1000000 2000000 = 0 ∧
      333333 < simLeg 1000000 2000000 (simLeg 1000000 2000000 333333) := by
  constructor
  · decide
  · decide

/-- C3: with identical reserves `(R1, R2) = (3, 6)` on both venues the
Scanner-composed call `calcular_quantidade_otima(3, 6, 6, 3)` returns `1`,
not `0` as the claim (and the function's own documentation) requires; the
round trip simulated at that amount returns `0 < 1`, i.e. there is no
opportunity. -/
theorem C3_identical_reserves_solver_returns_one :
    calcular_quantidade_otima 3 6 6 3 = 1 ∧ simLeg 6 3 (simLeg 3 6 1) < 1 := by
  constructor
  · decide
  · decide

end BotZeus

namespace BotZeus

/-! ## The nonce sequencer (`utils/nonce_utils.py`)

`NonceManager` holds one stored value `self.nonce`.  Network reads
(`web3.eth.get_transaction_count`) are modelled by an explicit parameter
`net`, the value the network would answer. -/

structure NonceManager where
  nonce : ℕ
  deriving DecidableEq, Repr

/-- `get_nonce(refresh)`: returns the current nonce, refreshing it from the
network first when `refresh` is set. -/
def NonceManager.get_nonce (nm : NonceManager) (refresh : Bool) (net : ℕ) :
    ℕ × NonceManager :=
  if refresh then (net, ⟨net⟩) else (nm.nonce, nm)

/-- `increment_nonce`: unconditional local increment. -/
def NonceManager.increment_nonce (nm : NonceManager) : NonceManager := ⟨nm.nonce + 1⟩

/-- `reset_nonce`: authoritative re-read from the network. -/
def NonceManager.reset_nonce (_nm : NonceManager) (net : ℕ) : NonceManager := ⟨net⟩

/-- `sync_with_network`: authoritative re-read from the network. -/
def NonceManager.sync_with_network (_nm : NonceManager) (net : ℕ) : NonceManager := ⟨net⟩

/-- `incrementar_se_confirmado`: increments only when the receipt status is
`1`; otherwise runs `reset_nonce`. -/
def NonceManager.incrementar_se_confirmado (nm : NonceManager) (status : ℕ) (net : ℕ) :
    NonceManager :=
  if status = 1 then nm.increment_nonce else nm.reset_nonce net

/-- One invocation of any public `NonceManager` operation. -/
inductive NonceOp
  | get (refresh : Bool)
  | increment
  | confirmado (status : ℕ)
  | reset
  | sync
  deriving DecidableEq, Repr

def NonceManager.apply : NonceManager → NonceOp → ℕ → NonceManager
  | nm, .get r, net => (nm.get_nonce r net).2
  | nm, .increment, _ => nm.increment_nonce
  | nm, .confirmado s, net => nm.incrementar_se_confirmado s net
  | nm, .reset, net => nm.reset_nonce net
  | nm, .sync, net => nm.sync_with_network net

/-- C5: across every `NonceManager` operation the stored nonce never
decreases except by taking the authoritative network value (which is exactly
what `get_nonce(refresh=True)`, `reset_nonce`, `sync_with_network` and the
failure branch of `incrementar_se_confirmado` do), and
`incrementar_se_confirmado` increments precisely on a status-1 receipt and
resyncs from the network otherwise.  Quantifying over each single operation
settles every sequence of operations. -/
theorem C5_nonce_monotone_except_network_sync (nm : NonceManager) (op : NonceOp) (net : ℕ) :
    (nm.nonce ≤ (nm.apply op net).nonce ∨ (nm.apply op net).nonce = net) ∧
      (∀ s, nm.incrementar_se_confirmado s net =
        if s = 1 then ⟨nm.nonce + 1⟩ else ⟨net⟩) := by
  constructor
  · cases op with
    | get r =>
      cases r <;>
        simp [NonceManager.apply, NonceManager.get_nonce]
    | increment =>
      simp [NonceManager.apply, NonceManager.increment_nonce]
    | confirmado s =>
      by_cases h : s = 1 <;>
        simp [NonceManager.apply, NonceManager.incrementar_se_confirmado, h,
          NonceManager.increment_nonce, NonceManager.reset_nonce]
    | reset => simp [NonceManager.apply, NonceManager.reset_nonce]
    | sync => simp [NonceManager.apply, NonceManager.sync_with_network]
  · intro s
    by_cases h : s = 1 <;>
      simp [NonceManager.incrementar_se_confirmado, h, NonceManager.increment_nonce,
        NonceManager.reset_nonce]

/-! ## The two transaction-submission paths (C4)

The outcome of submitting a signed transaction and polling for its receipt
is abstracted into four cases.  The first component of each result is the
value returned to the caller (`some status` for a receipt, `none` when an
exception propagates). -/

inductive TxOutcome
  | success
  | reverted
  | timeout
  | submitError
  deriving DecidableEq, Repr

/-- `iniciar_flash_loan` (`src/flash_loan.py`, lines 86-111): first runs
`nonce_manager.sync_with_network()`, builds the transaction with
`get_nonce()`, submits it and polls the receipt (`verificar_recibo`).  A
returned receipt (success or revert) is handed back unchanged; a polling
timeout or a submission error raises out of the function.  No branch touches
the stored nonce after the initial sync. -/
def iniciar_flash_loan (nm : NonceManager) (net : ℕ) (outcome : TxOutcome) :
    Option ℕ × NonceManager :=
  let nm1 := nm.sync_with_network net
  match outcome with
  | .success => (some 1, nm1)
  | .reverted => (some 0, nm1)
  | .timeout => (none, nm1)
  | .submitError => (none, nm1)

/-- `_enviar_e_aguardar_transacao` (`utils/dex_operations.py`, lines 37-54):
signs, sends and waits for the receipt, then runs
`incrementar_se_confirmado(receipt)`; if anything raised, it resyncs the
nonce from the network and raises `SwapError`. -/
def enviar_e_aguardar_transacao (nm : NonceManager) (net : ℕ) (outcome : TxOutcome) :
    Option ℕ × NonceManager :=
  match outcome with
  | .success => (some 1, nm.incrementar_se_confirmado 1 net)
  | .reverted => (some 0, nm.incrementar_se_confirmado 0 net)
  | .timeout => (none, nm.sync_with_network net)
  | .submitError => (none, nm.sync_with_network net)

/-- Modelled from the spec: `iniciar_operacao_flash_loan`, which
`src/arbitrage.py` imports from `src/flash_loan.py`, is absent from the
repository; per the specification's Execution Engine it submits the
flash-loan transaction (the behaviour of `iniciar_flash_loan`) and returns
the receipt to the caller. -/
def iniciar_operacao_flash_loan (nm : NonceManager) (net : ℕ) (outcome : TxOutcome) :
    Option ℕ × NonceManager :=
  iniciar_flash_loan nm net outcome

/-- `executar_arbitragem_com_flashloan` (`src/arbitrage.py`): aborts before
submitting when either slippage guard is zero or dry-run mode is active;
otherwise submits exactly once, and any raised error is caught and logged —
the function returns without retrying.  The second component counts
flash-loan submissions. -/
def executar_arbitragem_com_flashloan (amountOutMin1 amountOutMin2 : ℕ) (dryRun : Bool)
    (nm : NonceManager) (net : ℕ) (outcome : TxOutcome) : NonceManager × ℕ :=
  if amountOutMin1 = 0 ∨ amountOutMin2 = 0 then (nm, 0)
  else if dryRun then (nm, 0)
  else ((iniciar_operacao_flash_loan nm net outcome).2, 1)

/-- C4, as stated, is false: in the flash-loan execution path a success
receipt does not advance the stored nonce.  Concretely, with stored nonce 5
and network nonce 5, a successful submission returns the status-1 receipt
yet leaves the stored nonce at 5, not 6. -/
theorem C4_flash_loan_success_does_not_advance_counterexample :
    (iniciar_flash_loan ⟨5⟩ 5 .success).1 = some 1 ∧
      (iniciar_flash_loan ⟨5⟩ 5 .success).2.nonce = 5 := by
  constructor <;> rfl

/-- C4 (amended): the advance-on-success / resync-otherwise discipline
belongs to the standalone swap path `_enviar_e_aguardar_transacao` (success
advances the stored nonce by one, every other outcome leaves it equal to the
authoritative network value); the flash-loan path `iniciar_flash_loan`
instead resyncs from the network before submitting and leaves the stored
nonce at the network value on every outcome, never advancing it locally; and
the execution engine submits a selected opportunity at most once per cycle,
never retrying it. -/
theorem C4_nonce_effects_of_submission_paths (nm : NonceManager) (net : ℕ) :
    (∀ o, (iniciar_flash_loan nm net o).2.nonce = net) ∧
      (enviar_e_aguardar_transacao nm net .success).2.nonce = nm.nonce + 1 ∧
      (enviar_e_aguardar_transacao nm net .reverted).2.nonce = net ∧
      (enviar_e_aguardar_transacao nm net .timeout).2.nonce = net ∧
      (enviar_e_aguardar_transacao nm net .submitError).2.nonce = net ∧
      (∀ m1 m2 dry o, (executar_arbitragem_com_flashloan m1 m2 dry nm net o).2 ≤ 1) := by
  refine ⟨fun o => ?_, rfl, rfl, rfl, rfl, fun m1 m2 dry o => ?_⟩
  · cases o <;> rfl
  · unfold executar_arbitragem_com_flashloan
    split
    · exact Nat.zero_le 1
    · split
      · exact Nat.zero_le 1
      · exact Nat.le_refl 1

end BotZeus

namespace BotZeus

/-! ## RPC failover (`utils/rpc_utils.py`)

`try_failover` walks the non-current candidate endpoints in priority order;
`_build_web3(url)` (connect then read the block number) is the probe,
modelled by `probe : String → Bool`; the fallible tail of `_hot_switch`
(nonce-manager and contract rebuilding) is `switchOk : String → Bool`.
`_hot_switch` assigns the new `chosen_url` before any fallible step, so the
model records the new url even when the switch then fails. -/

structure RpcState where
  chosenUrl : Option String
  lastFailoverTs : ℤ
  deriving DecidableEq, Repr

/-- The candidate filter of `try_failover`: `c and c != current`. -/
def candOk (st : RpcState) (c : String) : Bool :=
  if c = "" then false else if some c = st.chosenUrl then false else true

/-- `_hot_switch`: rebinds the active endpoint to `url` and rebuilds every
dependent handle; returns whether the rebuild succeeded. -/
def hot_switch (st : RpcState) (url : String) (switchOk : String → Bool) :
    Bool × RpcState :=
  (switchOk url, { st with chosenUrl := some url })

/-- The candidate loop of `try_failover`: probe each url, hot-switch to the
first one that probes healthy and rebuilds; record the failover time on
success. -/
def try_failover_go (probe switchOk : String → Bool) (now : ℤ) :
    List String → RpcState → Bool × RpcState
  | [], st => (false, st)
  | url :: rest, st =>
    if probe url then
      let hs := hot_switch st url switchOk
      if hs.1 then (true, { hs.2 with lastFailoverTs := now })
      else try_failover_go probe switchOk now rest hs.2
    else try_failover_go probe switchOk now rest st

/-- `try_failover`: refuse inside the 120 s cooldown; otherwise drop empty
and current urls from the candidates and run the loop. -/
def try_failover (st : RpcState) (now : ℤ) (cands : List String)
    (probe switchOk : String → Bool) : Bool × RpcState :=
  if now - st.lastFailoverTs < 120 then (false, st)
  else
    let cands' := cands.filter (candOk st)
    if cands' = [] then (false, st)
    else try_failover_go probe switchOk now cands' st

theorem candOk_spec (st : RpcState) (c : String) (h : candOk st c = true) :
    c ≠ "" ∧ some c ≠ st.chosenUrl := by
  unfold candOk at h
  by_cases h1 : c = ""
  · rw [if_pos h1] at h
    exact absurd h (by simp)
  · rw [if_neg h1] at h
    by_cases h2 : some c = st.chosenUrl
    · rw [if_pos h2] at h
      exact absurd h (by simp)
    · exact ⟨h1, h2⟩

theorem try_failover_go_chosen (probe switchOk : String → Bool) (now : ℤ) :
    ∀ (l : List String) (st : RpcState),
      ((try_failover_go probe switchOk now l st).2.chosenUrl = st.chosenUrl ∨
        ∃ u, (try_failover_go probe switchOk now l st).2.chosenUrl = some u ∧
          probe u = true) ∧
      ((try_failover_go probe switchOk now l st).1 = true →
        ∃ u ∈ l, probe u = true ∧ switchOk u = true ∧
          (try_failover_go probe switchOk now l st).2.chosenUrl = some u)
  | [], st => by simp [try_failover_go]
  | url :: rest, st => by
    by_cases hp : probe url
    · by_cases hs : switchOk url
      · constructor
        · right
          exact ⟨url, by simp [try_failover_go, hot_switch, hp, hs], hp⟩
        · intro _
          exact ⟨url, List.mem_cons_self url rest, hp, hs,
            by simp [try_failover_go, hot_switch, hp, hs]⟩
      · have ih := try_failover_go_chosen probe switchOk now rest
          { st with chosenUrl := some url }
        constructor
        · rcases ih.1 with h | ⟨u, hu, hpu⟩
          · right
            refine ⟨url, ?_, hp⟩
            simpa [try_failover_go, hot_switch, hp, hs] using h
          · right
            exact ⟨u, by simpa [try_failover_go, hot_switch, hp, hs] using hu, hpu⟩
        · intro hok
          have hok' : (try_failover_go probe switchOk now rest
              { st with chosenUrl := some url }).1 = true := by
            simpa [try_failover_go, hot_switch, hp, hs] using hok
          obtain ⟨u, hmem, h1, h2, h3⟩ := (ih.2) hok'
          exact ⟨u, List.mem_cons_of_mem url hmem, h1, h2,
            by simpa [try_failover_go, hot_switch, hp, hs] using h3⟩
    · have ih := try_failover_go_chosen probe switchOk now rest st
      constructor
      · rcases ih.1 with h | ⟨u, hu, hpu⟩
        · left
          simpa [try_failover_go, hp] using h
        · right
          exact ⟨u, by simpa [try_failover_go, hp] using hu, hpu⟩
      · intro hok
        have hok' : (try_failover_go probe switchOk now rest st).1 = true := by
          simpa [try_failover_go, hp] using hok
        obtain ⟨u, hmem, h1, h2, h3⟩ := (ih.2) hok'
        exact ⟨u, List.mem_cons_of_mem url hmem, h1, h2,
          by simpa [try_failover_go, hp] using h3⟩

/-- C6: failover never activates an endpoint whose own probe failed — after
`try_failover` the active endpoint is either unchanged or an endpoint whose
connectivity-and-smoke probe succeeded — and when `try_failover` reports
success the active endpoint equals exactly a probed-healthy, successfully
rebuilt, non-current candidate. -/
theorem C6_failover_only_to_probed_healthy (st : RpcState) (now : ℤ)
    (cands : List String) (probe switchOk : String → Bool) :
    ((try_failover st now cands probe switchOk).2.chosenUrl = st.chosenUrl ∨
      ∃ u, (try_failover st now cands probe switchOk).2.chosenUrl = some u ∧
        probe u = true) ∧
    ((try_failover st now cands probe switchOk).1 = true →
      ∃ u ∈ cands, probe u = true ∧ switchOk u = true ∧ u ≠ "" ∧
        some u ≠ st.chosenUrl ∧
        (try_failover st now cands probe switchOk).2.chosenUrl = some u) := by
  unfold try_failover
  by_cases hcd : now - st.lastFailoverTs < 120
  · rw [if_pos hcd]
    exact ⟨Or.inl rfl, by intro h; exact absurd h (by simp)⟩
  · rw [if_neg hcd]
    by_cases hempty : cands.filter (candOk st) = []
    · rw [if_pos hempty]
      exact ⟨Or.inl rfl, by intro h; exact absurd h (by simp)⟩
    · rw [if_neg hempty]
      have h := try_failover_go_chosen probe switchOk now (cands.filter (candOk st)) st
      refine ⟨h.1, fun hok => ?_⟩
      obtain ⟨u, hmem, h1, h2, h3⟩ := (h.2) hok
      have hmem' := List.mem_filter.mp hmem
      obtain ⟨hne, hcur⟩ := candOk_spec st u hmem'.2
      exact ⟨u, hmem'.1, h1, h2, hne, hcur, h3⟩

/-- Witness for `C6_failover_only_to_probed_healthy`: one candidate that
probes healthy and rebuilds; failover succeeds and activates it. -/
theorem C6_failover_only_to_probed_healthy_witness :
    ∃ u ∈ ["rpc-b"], (fun (_ : String) => true) u = true ∧
      (fun (_ : String) => true) u = true ∧ u ≠ "" ∧
      some u ≠ (⟨some "rpc-a", 0⟩ : RpcState).chosenUrl ∧
      (try_failover ⟨some "rpc-a", 0⟩ 500 ["rpc-b"]
          (fun _ => true) (fun _ => true)).2.chosenUrl = some u :=
  (C6_failover_only_to_probed_healthy ⟨some "rpc-a", 0⟩ 500 ["rpc-b"]
    (fun _ => true) (fun _ => true)).2 (by decide)

end BotZeus

namespace BotZeus

/-! ## V3 path encoding (`liquidity_utils._encode_v3_path`)

A token address is its 160-bit value (the checksum conversion in the source
only changes the hex spelling, not the 20 bytes); a fee is a `uint24`.
`int.to_bytes(k, 'big')` is `toBytesBE k`. -/

/-- `n.to_bytes(k, 'big')`: the `k` big-endian base-256 digits of `n`. -/
def toBytesBE : ℕ → ℕ → List ℕ
  | 0, _ => []
  | k + 1, n => toBytesBE k (n / 256) ++ [n % 256]

/-- `int.from_bytes(bs, 'big')`. -/
def fromBytesBE (bs : List ℕ) : ℕ := bs.foldl (fun a b => a * 256 + b) 0

/-- The loop of `_encode_v3_path`: each token contributes 20 bytes and is
followed by 3 fee bytes while fees remain. -/
def encodeV3Aux : List ℕ → List ℕ → List ℕ
  | [], _ => []
  | t :: ts, [] => toBytesBE 20 t ++ encodeV3Aux ts []
  | t :: ts, f :: fs => toBytesBE 20 t ++ toBytesBE 3 f ++ encodeV3Aux ts fs

/-- `_encode_v3_path`: `ValueError` (here `none`) unless there are at least
2 tokens and exactly `N - 1` fees. -/
def encode_v3_path (tokens fees : List ℕ) : Option (List ℕ) :=
  if tokens.length < 2 then none
  else if fees.length ≠ tokens.length - 1 then none
  else some (encodeV3Aux tokens fees)

/-- Decoder for the V3 path byte format: 20 token bytes, then alternating
3 fee bytes and 20 token bytes (fuel-based recursion; a byte sequence that
does not fit the format decodes to `none`). -/
def decodeV3Aux : ℕ → List ℕ → Option (List ℕ × List ℕ)
  | 0, _ => none
  | fuel + 1, bs =>
    if bs.length = 20 then some ([fromBytesBE bs], [])
    else if 23 ≤ bs.length then
      match decodeV3Aux fuel (bs.drop 23) with
      | some (ts, fs) =>
        some (fromBytesBE (bs.take 20) :: ts, fromBytesBE ((bs.drop 20).take 3) :: fs)
      | none => none
    else none

def decode_v3_path (bs : List ℕ) : Option (List ℕ × List ℕ) := decodeV3Aux bs.length bs

theorem toBytesBE_length (k n : ℕ) : (toBytesBE k n).length = k := by
  induction k generalizing n with
  | zero => rfl
  | succ k ih => simp [toBytesBE, ih]

theorem fromBytesBE_append_singleton (bs : List ℕ) (b : ℕ) :
    fromBytesBE (bs ++ [b]) = fromBytesBE bs * 256 + b := by
  simp [fromBytesBE, List.foldl_append]

theorem fromBytesBE_toBytesBE (k n : ℕ) (h : n < 256 ^ k) :
    fromBytesBE (toBytesBE k n) = n := by
  induction k generalizing n with
  | zero =>
    interval_cases n
    rfl
  | succ k ih =>
    have hdiv : n / 256 < 256 ^ k := by
      rw [Nat.div_lt_iff_lt_mul (by norm_num)]
      calc n < 256 ^ (k + 1) := h
        _ = 256 ^ k * 256 := by ring
    rw [toBytesBE, fromBytesBE_append_singleton, ih _ hdiv]
    omega

theorem encodeV3Aux_length (fs ts : List ℕ) (h : ts.length = fs.length + 1) :
    (encodeV3Aux ts fs).length = 23 * fs.length + 20 := by
  induction fs generalizing ts with
  | nil =>
    match ts, h with
    | [t], _ => simp [encodeV3Aux, toBytesBE_length]
  | cons f fs ih =>
    match ts, h with
    | t :: ts', h =>
      have h' : ts'.length = fs.length + 1 := by
        simpa using h
      simp only [encodeV3Aux, List.length_append, toBytesBE_length, ih ts' h']
      simp
      ring

theorem decode_encodeV3Aux (fs : List ℕ) :
    ∀ ts : List ℕ, ts.length = fs.length + 1 →
      (∀ t ∈ ts, t < 2 ^ 160) → (∀ f ∈ fs, f < 2 ^ 24) →
      ∀ fuel : ℕ, ts.length ≤ fuel →
        decodeV3Aux fuel (encodeV3Aux ts fs) = some (ts, fs) := by
  have h160 : (2 : ℕ) ^ 160 = 256 ^ 20 := by norm_num
  have h24 : (2 : ℕ) ^ 24 = 256 ^ 3 := by norm_num
  induction fs with
  | nil =>
    intro ts hlen htok _ fuel hfuel
    match ts, hlen with
    | [t], _ =>
      match fuel, hfuel with
      | m + 1, _ =>
        have ht : t < 256 ^ 20 := h160 ▸ htok t (by simp)
        have henc : encodeV3Aux [t] ([] : List ℕ) = toBytesBE 20 t := by
          simp [encodeV3Aux]
        rw [henc, decodeV3Aux, if_pos (toBytesBE_length 20 t),
          fromBytesBE_toBytesBE 20 t ht]
  | cons f fs ih =>
    intro ts hlen htok hfee fuel hfuel
    match ts, hlen with
    | t :: ts', hlen =>
      have hlen' : ts'.length = fs.length + 1 := by simpa using hlen
      match fuel, hfuel with
      | m + 1, hfuel =>
        have hm : ts'.length ≤ m := by
          have : ts'.length + 1 ≤ m + 1 := by simpa using hfuel
          omega
        have ht : t < 256 ^ 20 := h160 ▸ htok t (by simp)
        have hf : f < 256 ^ 3 := h24 ▸ hfee f (by simp)
        have hrest := ih ts' hlen' (fun x hx => htok x (List.mem_cons_of_mem t hx))
          (fun x hx => hfee x (List.mem_cons_of_mem f hx)) m hm
        have hrestlen : (encodeV3Aux ts' fs).length = 23 * fs.length + 20 :=
          encodeV3Aux_length fs ts' hlen'
        have hbytes : encodeV3Aux (t :: ts') (f :: fs) =
            (toBytesBE 20 t ++ toBytesBE 3 f) ++ encodeV3Aux ts' fs := by
          rw [encodeV3Aux, List.append_assoc]
        have hlen23 : (toBytesBE 20 t ++ toBytesBE 3 f).length = 23 := by
          simp [toBytesBE_length]
        have htotal : (encodeV3Aux (t :: ts') (f :: fs)).length = 23 * fs.length + 43 := by
          rw [hbytes, List.length_append, hlen23, hrestlen]
          ring
        have hdrop : (encodeV3Aux (t :: ts') (f :: fs)).drop 23 = encodeV3Aux ts' fs := by
          rw [hbytes, List.drop_left' hlen23]
        have htake : (encodeV3Aux (t :: ts') (f :: fs)).take 20 = toBytesBE 20 t := by
          rw [encodeV3Aux, List.append_assoc, List.take_left' (toBytesBE_length 20 t)]
        have hdrop20 : ((encodeV3Aux (t :: ts') (f :: fs)).drop 20).take 3 = toBytesBE 3 f := by
          rw [encodeV3Aux, List.append_assoc, List.drop_left' (toBytesBE_length 20 t),
            List.take_left' (toBytesBE_length 3 f)]
        rw [decodeV3Aux, if_neg (by rw [htotal]; omega), if_pos (by rw [htotal]; omega),
          hdrop, hrest, htake, hdrop20, fromBytesBE_toBytesBE 20 t ht,
          fromBytesBE_toBytesBE 3 f hf]

/-- C9: for every valid input — 2 to 4 token addresses with exactly
`N - 1` `uint24` fee values — `_encode_v3_path` produces the byte sequence
of 20-byte token identifiers interleaved with 3-byte big-endian fee values
(`23 * fees + 20` bytes in total), and decoding that byte sequence recovers
exactly the original token and fee sequences, so the encoding is injective
on valid inputs. -/
theorem C9_encode_decode_roundtrip (tokens fees : List ℕ)
    (h2 : 2 ≤ tokens.length) (h4 : tokens.length ≤ 4)
    (hlen : fees.length = tokens.length - 1)
    (htok : ∀ t ∈ tokens, t < 2 ^ 160) (hfee : ∀ f ∈ fees, f < 2 ^ 24) :
    ∃ bs, encode_v3_path tokens fees = some bs ∧
      bs.length = 23 * fees.length + 20 ∧
      decode_v3_path bs = some (tokens, fees) := by
  have _h4 := h4
  have hlen' : tokens.length = fees.length + 1 := by omega
  refine ⟨encodeV3Aux tokens fees, ?_, ?_, ?_⟩
  · unfold encode_v3_path
    rw [if_neg (by omega), if_neg (by omega)]
  · exact encodeV3Aux_length fees tokens hlen'
  · unfold decode_v3_path
    exact decode_encodeV3Aux fees tokens hlen' htok hfee _
      (by rw [encodeV3Aux_length fees tokens hlen']; omega)

/-- Witness for `C9_encode_decode_roundtrip` at tokens `[1, 2]`, fees
`[500]`. -/
theorem C9_encode_decode_roundtrip_witness :
    ∃ bs, encode_v3_path [1, 2] [500] = some bs ∧
      bs.length = 23 * 1 + 20 ∧
      decode_v3_path bs = some ([1, 2], [500]) :=
  C9_encode_decode_roundtrip [1, 2] [500] (by decide) (by decide) (by decide)
    (by decide) (by decide)

end BotZeus

namespace BotZeus

/-! ## Route-candidate generation (`liquidity_utils.py`)

`_candidate_v2_paths` (constant-product venues) and the candidate
enumeration inside `quote_v3_multihop` (concentrated-liquidity venues).
Token addresses are an arbitrary type with decidable equality (the source's
checksum conversion is injective on addresses); the hub list models the
`wmatic/weth/usdt/dai` whitelist read from configuration. -/

section RouteCandidates

variable {α : Type} [DecidableEq α]

/-- The hub guard `h != token_in and h != token_out`
(`h not in (token_in, token_out)` in the V3 enumeration). -/
def hubOk (tokenIn tokenOut x : α) : Bool :=
  if x = tokenIn then false else if x = tokenOut then false else true

theorem hubOk_iff {tokenIn tokenOut x : α} :
    hubOk tokenIn tokenOut x = true ↔ x ≠ tokenIn ∧ x ≠ tokenOut := by
  unfold hubOk
  by_cases h1 : x = tokenIn
  · simp [h1]
  · by_cases h2 : x = tokenOut <;> simp [h1, h2]

/-- The dedup loop closing `_candidate_v2_paths`: drop paths shorter than 2
or longer than 4 nodes, keep the first occurrence of each remaining path. -/
def uniquePathsAux : List (List α) → List (List α) → List (List α)
  | _, [] => []
  | seen, p :: ps =>
    if p.length < 2 ∨ 4 < p.length then uniquePathsAux seen ps
    else if p ∈ seen then uniquePathsAux seen ps
    else p :: uniquePathsAux (p :: seen) ps

def uniquePaths (paths : List (List α)) : List (List α) := uniquePathsAux [] paths

/-- The first block of `_candidate_v2_paths`: the direct path and one-hub
paths over hubs distinct from both endpoints. -/
def v2DirectAndOneHub (tokenIn tokenOut : α) (hubs : List α) : List (List α) :=
  [tokenIn, tokenOut] ::
    (hubs.filter (hubOk tokenIn tokenOut)).map (fun h => [tokenIn, h, tokenOut])

/-- The two-hub block of `_candidate_v2_paths`: ordered pairs of distinct
hub indices, neither hub an endpoint, only when `V2_MAX_HOPS >= 2`. -/
def v2TwoHub (tokenIn tokenOut : α) (hubs : List α) (v2MaxHops : ℕ) : List (List α) :=
  if 2 ≤ v2MaxHops then
    hubs.enum.flatMap fun p1 =>
      hubs.enum.flatMap fun p2 =>
        if p1.1 = p2.1 then []
        else if hubOk tokenIn tokenOut p1.2 && hubOk tokenIn tokenOut p2.2 then
          [[tokenIn, p1.2, p2.2, tokenOut]]
        else []
  else []

/-- `_candidate_v2_paths`: the blocks above, then dedup and length filter. -/
def candidate_v2_paths (tokenIn tokenOut : α) (hubs : List α) (v2MaxHops : ℕ) :
    List (List α) :=
  uniquePaths (v2DirectAndOneHub tokenIn tokenOut hubs ++ v2TwoHub tokenIn tokenOut hubs v2MaxHops)

/-- The direct candidates of `quote_v3_multihop`: one per fee choice. -/
def v3Direct (tokenIn tokenOut : α) (fees : List ℕ) : List (List α × List ℕ) :=
  fees.map fun f => ([tokenIn, tokenOut], [f])

/-- The one-hub candidates of `quote_v3_multihop`: hubs distinct from both
endpoints, one candidate per fee pair. -/
def v3OneHop (tokenIn tokenOut : α) (hubs : List α) (fees : List ℕ) :
    List (List α × List ℕ) :=
  hubs.flatMap fun h =>
    if hubOk tokenIn tokenOut h then
      fees.flatMap fun f1 => fees.map fun f2 => ([tokenIn, h, tokenOut], [f1, f2])
    else []

/-- The two-hub candidates of `quote_v3_multihop`: ordered pairs of distinct
hub indices, neither hub an endpoint, one candidate per fee triple, only
when `V3_MAX_HOPS >= 2`. -/
def v3TwoHop (tokenIn tokenOut : α) (hubs : List α) (fees : List ℕ) (maxHops : ℕ) :
    List (List α × List ℕ) :=
  if 2 ≤ maxHops then
    hubs.enum.flatMap fun p1 =>
      hubs.enum.flatMap fun p2 =>
        if p1.1 = p2.1 then []
        else if hubOk tokenIn tokenOut p1.2 && hubOk tokenIn tokenOut p2.2 then
          fees.flatMap fun f1 => fees.flatMap fun f2 => fees.map fun f3 =>
            ([tokenIn, p1.2, p2.2, tokenOut], [f1, f2, f3])
        else []
  else []

/-- The candidate enumeration of `quote_v3_multihop`.  No dedup pass exists
in the source. -/
def quote_v3_multihop_candidates (tokenIn tokenOut : α) (hubs : List α)
    (fees : List ℕ) (maxHops : ℕ) : List (List α × List ℕ) :=
  v3Direct tokenIn tokenOut fees ++ v3OneHop tokenIn tokenOut hubs fees ++
    v3TwoHop tokenIn tokenOut hubs fees maxHops

theorem uniquePathsAux_mem {seen l : List (List α)} {p : List α}
    (h : p ∈ uniquePathsAux seen l) :
    p ∈ l ∧ 2 ≤ p.length ∧ p.length ≤ 4 ∧ p ∉ seen := by
  induction l generalizing seen with
  | nil => simp [uniquePathsAux] at h
  | cons q qs ih =>
    rw [uniquePathsAux] at h
    by_cases h1 : q.length < 2 ∨ 4 < q.length
    · rw [if_pos h1] at h
      obtain ⟨hmem, h2, h3, h4⟩ := ih h
      exact ⟨List.mem_cons_of_mem q hmem, h2, h3, h4⟩
    · rw [if_neg h1] at h
      by_cases h2 : q ∈ seen
      · rw [if_pos h2] at h
        obtain ⟨hmem, h3, h4, h5⟩ := ih h
        exact ⟨List.mem_cons_of_mem q hmem, h3, h4, h5⟩
      · rw [if_neg h2] at h
        rcases List.mem_cons.mp h with hpq | htail
        · subst hpq
          exact ⟨List.mem_cons_self p qs, by omega, by omega, h2⟩
        · obtain ⟨hmem, h3, h4, h5⟩ := ih htail
          refine ⟨List.mem_cons_of_mem q hmem, h3, h4, fun hs => h5 ?_⟩
          exact List.mem_cons_of_mem q hs

theorem uniquePathsAux_nodup (l : List (List α)) :
    ∀ seen : List (List α), (uniquePathsAux seen l).Nodup := by
  induction l with
  | nil => intro seen; simp [uniquePathsAux]
  | cons q qs ih =>
    intro seen
    rw [uniquePathsAux]
    by_cases h1 : q.length < 2 ∨ 4 < q.length
    · rw [if_pos h1]; exact ih seen
    · rw [if_neg h1]
      by_cases h2 : q ∈ seen
      · rw [if_pos h2]; exact ih seen
      · rw [if_neg h2]
        refine List.nodup_cons.mpr ⟨fun hmem => ?_, ih (q :: seen)⟩
        exact (uniquePathsAux_mem hmem).2.2.2 (List.mem_cons_self q seen)

/-- A flat-map over a list is duplicate-free when each block is
duplicate-free and a key computed from each element identifies the block it
came from, the blocks' tags being distinct. -/
theorem nodup_flatMap_key {β γ δ : Type} (l : List β) (f : β → List γ)
    (key : γ → δ) (tag : β → δ) (hl : (l.map tag).Nodup)
    (hf : ∀ b ∈ l, (f b).Nodup)
    (hkey : ∀ b ∈ l, ∀ c ∈ f b, key c = tag b) : (l.flatMap f).Nodup := by
  induction l with
  | nil => simp
  | cons b bs ih =>
    rw [List.flatMap_cons, List.nodup_append]
    rw [List.map_cons, List.nodup_cons] at hl
    refine ⟨hf b (List.mem_cons_self b bs), ih hl.2
      (fun x hx => hf x (List.mem_cons_of_mem b hx))
      (fun x hx => hkey x (List.mem_cons_of_mem b hx)), fun c hc hc' => ?_⟩
    obtain ⟨b', hb', hcb'⟩ := List.mem_flatMap.mp hc'
    have h1 : key c = tag b := hkey b (List.mem_cons_self b bs) c hc
    have h2 : key c = tag b' := hkey b' (List.mem_cons_of_mem b hb') c hcb'
    exact hl.1 (h1 ▸ h2 ▸ List.mem_map_of_mem tag hb')

omit [DecidableEq α] in
theorem enum_distinct_of_nodup {hubs : List α} (hnd : hubs.Nodup) {i j : ℕ} {a b : α}
    (ha : (i, a) ∈ hubs.enum) (hb : (j, b) ∈ hubs.enum) (hij : i ≠ j) : a ≠ b := by
  intro hab
  have ha' : hubs[i]? = some a := List.mem_enum_iff_getElem?.mp ha
  have hb' : hubs[j]? = some b := List.mem_enum_iff_getElem?.mp hb
  have hi : i < hubs.length := (List.getElem?_eq_some.mp ha').1
  exact hij (List.getElem?_inj hi hnd (by rw [ha', hb', hab]))

end RouteCandidates

end BotZeus

namespace BotZeus

section RouteCandidates

variable {α : Type} [DecidableEq α]

theorem mem_v2DirectAndOneHub {tin tout : α} {hubs : List α} {p : List α}
    (h : p ∈ v2DirectAndOneHub tin tout hubs) :
    p = [tin, tout] ∨ ∃ x ∈ hubs, (x ≠ tin ∧ x ≠ tout) ∧ p = [tin, x, tout] := by
  rcases List.mem_cons.mp h with h1 | h2
  · exact Or.inl h1
  · obtain ⟨x, hx, hxp⟩ := List.mem_map.mp h2
    have hx' := List.mem_filter.mp hx
    exact Or.inr ⟨x, hx'.1, hubOk_iff.mp hx'.2, hxp.symm⟩

theorem mem_v2TwoHub {tin tout : α} {hubs : List α} {mh : ℕ} {p : List α}
    (h : p ∈ v2TwoHub tin tout hubs mh) :
    ∃ q1 ∈ hubs.enum, ∃ q2 ∈ hubs.enum, q1.1 ≠ q2.1 ∧
      (q1.2 ≠ tin ∧ q1.2 ≠ tout) ∧ (q2.2 ≠ tin ∧ q2.2 ≠ tout) ∧
      p = [tin, q1.2, q2.2, tout] := by
  unfold v2TwoHub at h
  by_cases hmh : 2 ≤ mh
  · rw [if_pos hmh] at h
    obtain ⟨q1, hq1, hmem⟩ := List.mem_flatMap.mp h
    obtain ⟨q2, hq2, hmem2⟩ := List.mem_flatMap.mp hmem
    by_cases hij : q1.1 = q2.1
    · rw [if_pos hij] at hmem2
      simp at hmem2
    · rw [if_neg hij] at hmem2
      by_cases hok : (hubOk tin tout q1.2 && hubOk tin tout q2.2) = true
      · rw [if_pos hok] at hmem2
        have hok' : hubOk tin tout q1.2 = true ∧ hubOk tin tout q2.2 = true := by
          simpa using hok
        exact ⟨q1, hq1, q2, hq2, hij, hubOk_iff.mp hok'.1, hubOk_iff.mp hok'.2,
          List.mem_singleton.mp hmem2⟩
      · rw [if_neg hok] at hmem2
        simp at hmem2
  · rw [if_neg hmh] at h
    simp at h

omit [DecidableEq α] in
theorem mem_v3Direct {tin tout : α} {fees : List ℕ} {c : List α × List ℕ}
    (h : c ∈ v3Direct tin tout fees) : ∃ f ∈ fees, c = ([tin, tout], [f]) := by
  obtain ⟨f, hf, hfc⟩ := List.mem_map.mp h
  exact ⟨f, hf, hfc.symm⟩

theorem mem_v3OneHop {tin tout : α} {hubs : List α} {fees : List ℕ}
    {c : List α × List ℕ} (h : c ∈ v3OneHop tin tout hubs fees) :
    ∃ x ∈ hubs, (x ≠ tin ∧ x ≠ tout) ∧
      ∃ f1 ∈ fees, ∃ f2 ∈ fees, c = ([tin, x, tout], [f1, f2]) := by
  obtain ⟨x, hx, hmem⟩ := List.mem_flatMap.mp h
  by_cases hok : hubOk tin tout x = true
  · rw [if_pos hok] at hmem
    obtain ⟨f1, hf1, hmem2⟩ := List.mem_flatMap.mp hmem
    obtain ⟨f2, hf2, hc⟩ := List.mem_map.mp hmem2
    exact ⟨x, hx, hubOk_iff.mp hok, f1, hf1, f2, hf2, hc.symm⟩
  · rw [if_neg hok] at hmem
    simp at hmem

theorem mem_v3TwoHop {tin tout : α} {hubs : List α} {fees : List ℕ} {mh : ℕ}
    {c : List α × List ℕ} (h : c ∈ v3TwoHop tin tout hubs fees mh) :
    ∃ q1 ∈ hubs.enum, ∃ q2 ∈ hubs.enum, q1.1 ≠ q2.1 ∧
      (q1.2 ≠ tin ∧ q1.2 ≠ tout) ∧ (q2.2 ≠ tin ∧ q2.2 ≠ tout) ∧
      ∃ f1 ∈ fees, ∃ f2 ∈ fees, ∃ f3 ∈ fees,
        c = ([tin, q1.2, q2.2, tout], [f1, f2, f3]) := by
  unfold v3TwoHop at h
  by_cases hmh : 2 ≤ mh
  · rw [if_pos hmh] at h
    obtain ⟨q1, hq1, hmem⟩ := List.mem_flatMap.mp h
    obtain ⟨q2, hq2, hmem2⟩ := List.mem_flatMap.mp hmem
    by_cases hij : q1.1 = q2.1
    · rw [if_pos hij] at hmem2
      simp at hmem2
    · rw [if_neg hij] at hmem2
      by_cases hok : (hubOk tin tout q1.2 && hubOk tin tout q2.2) = true
      · rw [if_pos hok] at hmem2
        have hok' : hubOk tin tout q1.2 = true ∧ hubOk tin tout q2.2 = true := by
          simpa using hok
        obtain ⟨f1, hf1, hmem3⟩ := List.mem_flatMap.mp hmem2
        obtain ⟨f2, hf2, hmem4⟩ := List.mem_flatMap.mp hmem3
        obtain ⟨f3, hf3, hc⟩ := List.mem_map.mp hmem4
        exact ⟨q1, hq1, q2, hq2, hij, hubOk_iff.mp hok'.1, hubOk_iff.mp hok'.2,
          f1, hf1, f2, hf2, f3, hf3, hc.symm⟩
      · rw [if_neg hok] at hmem2
        simp at hmem2
  · rw [if_neg hmh] at h
    simp at h

omit [DecidableEq α] in
theorem v3Direct_nodup {tin tout : α} {fees : List ℕ} (hfnd : fees.Nodup) :
    (v3Direct tin tout fees).Nodup := by
  refine hfnd.map ?_
  intro a b hab
  simpa using hab

theorem v3OneHop_nodup {tin tout : α} {hubs : List α} {fees : List ℕ}
    (hnd : hubs.Nodup) (hfnd : fees.Nodup) : (v3OneHop tin tout hubs fees).Nodup := by
  refine nodup_flatMap_key hubs _ (fun c => c.1.get? 1) some
    (hnd.map (Option.some_injective α)) (fun x _ => ?_) (fun x _ c hc => ?_)
  · by_cases hok : hubOk tin tout x = true
    · rw [if_pos hok]
      refine nodup_flatMap_key fees _ (fun c => c.2.get? 0) some
        (hfnd.map (Option.some_injective ℕ)) (fun f1 _ => ?_) (fun f1 _ c hc => ?_)
      · refine hfnd.map ?_
        intro a b hab
        simpa using hab
      · obtain ⟨f2, _, hc2⟩ := List.mem_map.mp hc
        simp [← hc2]
    · rw [if_neg hok]
      exact List.nodup_nil
  · by_cases hok : hubOk tin tout x = true
    · rw [if_pos hok] at hc
      obtain ⟨f1, _, hmem2⟩ := List.mem_flatMap.mp hc
      obtain ⟨f2, _, hc2⟩ := List.mem_map.mp hmem2
      simp [← hc2]
    · rw [if_neg hok] at hc
      simp at hc

omit [DecidableEq α] in
theorem enum_map_some_snd_nodup {hubs : List α} (hnd : hubs.Nodup) :
    (hubs.enum.map fun p => some p.2).Nodup := by
  have : (hubs.enum.map fun p => some p.2) = hubs.map some := by
    rw [show (fun p : ℕ × α => some p.2) = (some ∘ Prod.snd) from rfl, ← List.map_map,
      List.enum_map_snd]
  rw [this]
  exact hnd.map (Option.some_injective α)

theorem v3TwoHop_nodup {tin tout : α} {hubs : List α} {fees : List ℕ} {mh : ℕ}
    (hnd : hubs.Nodup) (hfnd : fees.Nodup) : (v3TwoHop tin tout hubs fees mh).Nodup := by
  unfold v3TwoHop
  by_cases hmh : 2 ≤ mh
  · rw [if_pos hmh]
    refine nodup_flatMap_key hubs.enum _ (fun c => c.1.get? 1) (fun p => some p.2)
      (enum_map_some_snd_nodup hnd) (fun q1 _ => ?_) (fun q1 _ c hc => ?_)
    · refine nodup_flatMap_key hubs.enum _ (fun c => c.1.get? 2) (fun p => some p.2)
        (enum_map_some_snd_nodup hnd) (fun q2 _ => ?_) (fun q2 _ c hc => ?_)
      · by_cases hij : q1.1 = q2.1
        · rw [if_pos hij]
          exact List.nodup_nil
        · rw [if_neg hij]
          by_cases hok : (hubOk tin tout q1.2 && hubOk tin tout q2.2) = true
          · rw [if_pos hok]
            refine nodup_flatMap_key fees _ (fun c => c.2.get? 0) some
              (hfnd.map (Option.some_injective ℕ)) (fun f1 _ => ?_) (fun f1 _ c hc => ?_)
            · refine nodup_flatMap_key fees _ (fun c => c.2.get? 1) some
                (hfnd.map (Option.some_injective ℕ)) (fun f2 _ => ?_) (fun f2 _ c hc => ?_)
              · refine hfnd.map ?_
                intro a b hab
                simpa using hab
              · obtain ⟨f3, _, hc3⟩ := List.mem_map.mp hc
                simp [← hc3]
            · obtain ⟨f2, _, hmem⟩ := List.mem_flatMap.mp hc
              obtain ⟨f3, _, hc3⟩ := List.mem_map.mp hmem
              simp [← hc3]
          · rw [if_neg hok]
            exact List.nodup_nil
      · by_cases hij : q1.1 = q2.1
        · rw [if_pos hij] at hc
          simp at hc
        · rw [if_neg hij] at hc
          by_cases hok : (hubOk tin tout q1.2 && hubOk tin tout q2.2) = true
          · rw [if_pos hok] at hc
            obtain ⟨f1, _, hmem⟩ := List.mem_flatMap.mp hc
            obtain ⟨f2, _, hmem2⟩ := List.mem_flatMap.mp hmem
            obtain ⟨f3, _, hc3⟩ := List.mem_map.mp hmem2
            simp [← hc3]
          · rw [if_neg hok] at hc
            simp at hc
    · obtain ⟨q2, _, hmem⟩ := List.mem_flatMap.mp hc
      by_cases hij : q1.1 = q2.1
      · rw [if_pos hij] at hmem
        simp at hmem
      · rw [if_neg hij] at hmem
        by_cases hok : (hubOk tin tout q1.2 && hubOk tin tout q2.2) = true
        · rw [if_pos hok] at hmem
          obtain ⟨f1, _, hmem2⟩ := List.mem_flatMap.mp hmem
          obtain ⟨f2, _, hmem3⟩ := List.mem_flatMap.mp hmem2
          obtain ⟨f3, _, hc3⟩ := List.mem_map.mp hmem3
          simp [← hc3]
        · rw [if_neg hok] at hmem
          simp at hmem
  · rw [if_neg hmh]
    exact List.nodup_nil

end RouteCandidates

end BotZeus

namespace BotZeus

section RouteCandidates

variable {α : Type} [DecidableEq α]

/-- C8: with distinct endpoints, a duplicate-free hub whitelist and
duplicate-free fee choices, every candidate of `_candidate_v2_paths` has 2
to 4 tokens with no equal adjacent tokens and the candidate list is
duplicate-free; every candidate of the `quote_v3_multihop` enumeration has 2
to 4 tokens with no equal adjacent tokens and exactly `length - 1` fees, and
that candidate list is duplicate-free as well. -/
theorem C8_route_candidates_wellformed (tin tout : α) (hubs : List α) (fees : List ℕ)
    (v2MaxHops v3MaxHops : ℕ) (hio : tin ≠ tout) (hnd : hubs.Nodup)
    (hfnd : fees.Nodup) :
    (∀ p ∈ candidate_v2_paths tin tout hubs v2MaxHops,
        (2 ≤ p.length ∧ p.length ≤ 4) ∧ p.Chain' (· ≠ ·)) ∧
      (candidate_v2_paths tin tout hubs v2MaxHops).Nodup ∧
      (∀ c ∈ quote_v3_multihop_candidates tin tout hubs fees v3MaxHops,
        (2 ≤ c.1.length ∧ c.1.length ≤ 4) ∧ c.1.Chain' (· ≠ ·) ∧
          c.2.length = c.1.length - 1) ∧
      (quote_v3_multihop_candidates tin tout hubs fees v3MaxHops).Nodup := by
  refine ⟨fun p hp => ?_, ?_, fun c hc => ?_, ?_⟩
  · unfold candidate_v2_paths uniquePaths at hp
    obtain ⟨hmem, h2, h4, -⟩ := uniquePathsAux_mem hp
    refine ⟨⟨h2, h4⟩, ?_⟩
    rcases List.mem_append.mp hmem with hm | hm
    · rcases mem_v2DirectAndOneHub hm with h1 | ⟨x, _, ⟨hx1, hx2⟩, h1⟩
      · subst h1
        simp [List.chain'_cons, hio]
      · subst h1
        simp only [List.chain'_cons, List.chain'_singleton, and_true]
        exact ⟨fun he => hx1 he.symm, hx2⟩
    · obtain ⟨q1, hq1, q2, hq2, hij, ⟨hx1, hx2⟩, ⟨hy1, hy2⟩, h1⟩ := mem_v2TwoHub hm
      subst h1
      simp only [List.chain'_cons, List.chain'_singleton, and_true]
      exact ⟨fun he => hx1 he.symm, enum_distinct_of_nodup hnd hq1 hq2 hij, hy2⟩
  · exact uniquePathsAux_nodup _ []
  · rcases List.mem_append.mp hc with hm | hm
    · rcases List.mem_append.mp hm with hm2 | hm2
      · obtain ⟨f, _, h1⟩ := mem_v3Direct hm2
        subst h1
        refine ⟨⟨by norm_num, by norm_num⟩, ?_, rfl⟩
        simp [List.chain'_cons, hio]
      · obtain ⟨x, _, ⟨hx1, hx2⟩, f1, _, f2, _, h1⟩ := mem_v3OneHop hm2
        subst h1
        refine ⟨⟨by norm_num, by norm_num⟩, ?_, rfl⟩
        simp only [List.chain'_cons, List.chain'_singleton, and_true]
        exact ⟨fun he => hx1 he.symm, hx2⟩
    · obtain ⟨q1, hq1, q2, hq2, hij, ⟨hx1, hx2⟩, ⟨hy1, hy2⟩, f1, _, f2, _, f3, _, h1⟩ :=
        mem_v3TwoHop hm
      subst h1
      refine ⟨⟨by norm_num, by norm_num⟩, ?_, rfl⟩
      simp only [List.chain'_cons, List.chain'_singleton, and_true]
      exact ⟨fun he => hx1 he.symm, enum_distinct_of_nodup hnd hq1 hq2 hij, hy2⟩
  · unfold quote_v3_multihop_candidates
    rw [List.append_assoc, List.nodup_append]
    refine ⟨v3Direct_nodup hfnd, ?_, ?_⟩
    · rw [List.nodup_append]
      refine ⟨v3OneHop_nodup hnd hfnd, v3TwoHop_nodup hnd hfnd, ?_⟩
      intro c hc1 hc2
      obtain ⟨x, _, _, f1, _, f2, _, h1⟩ := mem_v3OneHop hc1
      obtain ⟨q1, _, q2, _, _, _, _, g1, _, g2, _, g3, _, h2⟩ := mem_v3TwoHop hc2
      rw [h1] at h2
      simpa using congrArg (fun c => c.1.length) h2
    · intro c hc1 hc2
      obtain ⟨f, _, h1⟩ := mem_v3Direct hc1
      rcases List.mem_append.mp hc2 with hm | hm
      · obtain ⟨x, _, _, f1, _, f2, _, h2⟩ := mem_v3OneHop hm
        rw [h1] at h2
        simpa using congrArg (fun c => c.1.length) h2
      · obtain ⟨q1, _, q2, _, _, _, _, g1, _, g2, _, g3, _, h2⟩ := mem_v3TwoHop hm
        rw [h1] at h2
        simpa using congrArg (fun c => c.1.length) h2

end RouteCandidates

/-- Witness for `C8_route_candidates_wellformed` at endpoints `0 ≠ 1`, hubs
`[2, 3]`, fees `[500, 3000]`, both max-hop settings `2`. -/
theorem C8_route_candidates_wellformed_witness :
    (∀ p ∈ candidate_v2_paths 0 1 [2, 3] 2,
        (2 ≤ p.length ∧ p.length ≤ 4) ∧ p.Chain' (· ≠ ·)) ∧
      (candidate_v2_paths 0 1 [2, 3] 2).Nodup ∧
      (∀ c ∈ quote_v3_multihop_candidates 0 1 [2, 3] [500, 3000] 2,
        (2 ≤ c.1.length ∧ c.1.length ≤ 4) ∧ c.1.Chain' (· ≠ ·) ∧
          c.2.length = c.1.length - 1) ∧
      (quote_v3_multihop_candidates 0 1 [2, 3] [500, 3000] 2).Nodup :=
  C8_route_candidates_wellformed (0 : ℕ) 1 [2, 3] [500, 3000] 2 2 (by decide)
    (by decide) (by decide)

end BotZeus

namespace BotZeus

/-! ## Quoting and the TTL quote cache (`liquidity_utils.py`)

The module-level dict `_quote_cache` maps a key to `(timestamp, value)`;
`_cache_get` returns the value only when present and no older than the TTL,
`_cache_set` stores `(time.time(), value)`.  External venue calls
(`quoteExactInputSingle`, `getAmountsOut`) are an oracle parameter keyed by
the same tuple as the cache and by the retry-attempt index; a raised
exception is `none`.  Results carry the number of external calls performed,
so that "answered from the cache without a new external call" is provable. -/

section Quoting

variable {α : Type} [DecidableEq α]

/-- Cache keys, mirroring the tuples built in the source. -/
inductive QuoteKey (α : Type)
  | v3Single (tokenIn tokenOut : α) (fee amt : ℕ)
  | v2Path (path : List α) (amt : ℕ)
  | v2Best (path : List α) (amt : ℕ)
  deriving DecidableEq

/-- The quote cache: entries `(key, timestamp, value)`; assignment prepends,
lookup takes the most recent entry, matching dict-update semantics. -/
abbrev Cache (α : Type) : Type := List (QuoteKey α × ℕ × ℕ)

def cache_find : Cache α → QuoteKey α → Option (ℕ × ℕ)
  | [], _ => none
  | e :: rest, key => if e.1 = key then some e.2 else cache_find rest key

/-- `_cache_get`: a hit only when the entry exists and is no older than the
TTL. -/
def cache_get (cache : Cache α) (key : QuoteKey α) (now ttl : ℕ) : Option ℕ :=
  match cache_find cache key with
  | none => none
  | some (ts, val) => if now - ts > ttl then none else some val

/-- `_cache_set`. -/
def cache_set (cache : Cache α) (key : QuoteKey α) (now val : ℕ) : Cache α :=
  (key, now, val) :: cache

/-- The retry loop `for _ in range(2)` around one venue call: the first
successful attempt wins, two failures leave the zero result.  Returns
`(result, number of external calls made)`. -/
def tryCall (o : ℕ → Option ℕ) : ℕ × ℕ :=
  match o 0 with
  | some v => (v, 1)
  | none =>
    match o 1 with
    | some v => (v, 2)
    | none => (0, 2)

/-- The shared cached-call shape of every quoting branch: consult the cache,
otherwise call with retries and store the result only when it is nonzero
(`if out: _cache_set(...)`). -/
def cacheStep (oracle : QuoteKey α → ℕ → Option ℕ) (key : QuoteKey α)
    (now ttl : ℕ) (cache : Cache α) : ℕ × Cache α × ℕ :=
  match cache_get cache key now ttl with
  | some v => (v, cache, 0)
  | none =>
    let rc := tryCall (oracle key)
    (rc.1, if rc.1 ≠ 0 then cache_set cache key now rc.1 else cache, rc.2)

/-- The fee tiers tried by the `UniswapV3` branch of `obter_preco_saida`. -/
def v3FeeTiers : List ℕ := [100, 500, 3000, 10000]

/-- The `UniswapV3` fee loop of `obter_preco_saida`: a cached quote per fee
tier, keeping the maximum (`melhor`); per-fee errors are swallowed and the
loop continues. -/
def v3FeeLoop (oracle : QuoteKey α → ℕ → Option ℕ) (tin tout : α)
    (amt now ttl : ℕ) : List ℕ → ℕ → Cache α → ℕ → ℕ × Cache α × ℕ
  | [], melhor, cache, calls => (melhor, cache, calls)
  | fee :: rest, melhor, cache, calls =>
    let st := cacheStep oracle (QuoteKey.v3Single tin tout fee amt) now ttl cache
    v3FeeLoop oracle tin tout amt now ttl rest
      (if st.1 > melhor then st.1 else melhor) st.2.1 (calls + st.2.2)

/-- `obter_preco_saida`: dispatch on the venue name; a venue that is neither
the concentrated-liquidity venue nor a known constant-product venue quotes
`0`; all underlying errors surface as a `0` quote, never as an exception. -/
def obter_preco_saida (dex : String) (oracle : QuoteKey α → ℕ → Option ℕ)
    (tin tout : α) (amt now ttl : ℕ) (cache : Cache α) : ℕ × Cache α × ℕ :=
  if dex = "UniswapV3" then
    v3FeeLoop oracle tin tout amt now ttl v3FeeTiers 0 cache 0
  else if dex = "SushiSwapV2" ∨ dex = "QuickSwapV2" then
    cacheStep oracle (QuoteKey.v2Path [tin, tout] amt) now ttl cache
  else (0, cache, 0)

/-- The candidate loop of `obter_melhor_caminho_v2_e_quote`: a cached quote
per candidate path, keeping the maximum output and its path. -/
def v2BestLoop (oracle : QuoteKey α → ℕ → Option ℕ) (amt now ttl : ℕ) :
    List (List α) → ℕ → List α → Cache α → ℕ → (ℕ × List α) × Cache α × ℕ
  | [], best, bestPath, cache, calls => ((best, bestPath), cache, calls)
  | path :: rest, best, bestPath, cache, calls =>
    let st := cacheStep oracle (QuoteKey.v2Best path amt) now ttl cache
    v2BestLoop oracle amt now ttl rest
      (if st.1 > best then st.1 else best)
      (if st.1 > best then path else bestPath) st.2.1 (calls + st.2.2)

/-- `obter_melhor_caminho_v2_e_quote`: `(0, [])` for venues that are not
constant-product; otherwise the best quoted candidate path. -/
def obter_melhor_caminho_v2_e_quote (dex : String)
    (oracle : QuoteKey α → ℕ → Option ℕ) (tin tout : α) (hubs : List α)
    (v2MaxHops amt now ttl : ℕ) (cache : Cache α) : (ℕ × List α) × Cache α × ℕ :=
  if dex = "SushiSwapV2" ∨ dex = "QuickSwapV2" then
    v2BestLoop oracle amt now ttl (candidate_v2_paths tin tout hubs v2MaxHops) 0 [] cache 0
  else ((0, []), cache, 0)

theorem tryCall_calls_pos (o : ℕ → Option ℕ) : 1 ≤ (tryCall o).2 := by
  rcases h0 : o 0 with _ | v
  · rcases h1 : o 1 with _ | w <;> simp [tryCall, h0, h1]
  · simp [tryCall, h0]

theorem tryCall_failed (o : ℕ → Option ℕ) (h : ∀ i, o i = none) :
    tryCall o = (0, 2) := by
  simp [tryCall, h 0, h 1]

theorem cacheStep_preserves (oracle : QuoteKey α → ℕ → Option ℕ)
    (key : QuoteKey α) (now ttl : ℕ) (cache : Cache α)
    (h : ∀ e ∈ cache, 0 < e.2.2) :
    ∀ e ∈ (cacheStep oracle key now ttl cache).2.1, 0 < e.2.2 := by
  unfold cacheStep
  match cache_get cache key now ttl with
  | some v => exact h
  | none =>
    dsimp only
    by_cases hz : (tryCall (oracle key)).1 ≠ 0
    · rw [if_pos hz]
      intro e he
      rcases List.mem_cons.mp he with he1 | he2
      · rw [he1]
        exact Nat.pos_of_ne_zero hz
      · exact h e he2
    · rw [if_neg hz]
      exact h

theorem cacheStep_hit (oracle : QuoteKey α → ℕ → Option ℕ) (key : QuoteKey α)
    (now ttl : ℕ) (cache : Cache α) (v : ℕ)
    (h : cache_get cache key now ttl = some v) :
    cacheStep oracle key now ttl cache = (v, cache, 0) := by
  unfold cacheStep
  rw [h]

theorem cacheStep_miss (oracle : QuoteKey α → ℕ → Option ℕ) (key : QuoteKey α)
    (now ttl : ℕ) (cache : Cache α) (h : cache_get cache key now ttl = none) :
    1 ≤ (cacheStep oracle key now ttl cache).2.2 ∧
      ((∀ i, oracle key i = none) →
        cacheStep oracle key now ttl cache = (0, cache, 2)) := by
  unfold cacheStep
  rw [h]
  refine ⟨tryCall_calls_pos (oracle key), fun hfail => ?_⟩
  rw [tryCall_failed (oracle key) hfail]
  simp

theorem v3FeeLoop_preserves (oracle : QuoteKey α → ℕ → Option ℕ) (tin tout : α)
    (amt now ttl : ℕ) (fees : List ℕ) :
    ∀ (melhor : ℕ) (cache : Cache α) (calls : ℕ), (∀ e ∈ cache, 0 < e.2.2) →
      ∀ e ∈ (v3FeeLoop oracle tin tout amt now ttl fees melhor cache calls).2.1,
        0 < e.2.2 := by
  induction fees with
  | nil => intro melhor cache calls h; exact h
  | cons fee rest ih =>
    intro melhor cache calls h
    exact ih _ _ _ (cacheStep_preserves oracle _ now ttl cache h)

theorem v2BestLoop_preserves (oracle : QuoteKey α → ℕ → Option ℕ)
    (amt now ttl : ℕ) (paths : List (List α)) :
    ∀ (best : ℕ) (bestPath : List α) (cache : Cache α) (calls : ℕ),
      (∀ e ∈ cache, 0 < e.2.2) →
      ∀ e ∈ (v2BestLoop oracle amt now ttl paths best bestPath cache calls).2.1,
        0 < e.2.2 := by
  induction paths with
  | nil => intro best bestPath cache calls h; exact h
  | cons path rest ih =>
    intro best bestPath cache calls h
    exact ih _ _ _ _ (cacheStep_preserves oracle _ now ttl cache h)

theorem cache_get_nil (key : QuoteKey α) (now ttl : ℕ) :
    cache_get ([] : Cache α) key now ttl = none := rfl

theorem cacheStep_all_fail (oracle : QuoteKey α → ℕ → Option ℕ)
    (key : QuoteKey α) (now ttl : ℕ) (hfail : ∀ k i, oracle k i = none) :
    cacheStep oracle key now ttl ([] : Cache α) = (0, [], 2) :=
  ((cacheStep_miss oracle key now ttl [] (cache_get_nil key now ttl)).2
    (fun i => hfail key i))

theorem v3FeeLoop_all_fail (oracle : QuoteKey α → ℕ → Option ℕ) (tin tout : α)
    (amt now ttl : ℕ) (hfail : ∀ k i, oracle k i = none) (fees : List ℕ) :
    ∀ calls : ℕ,
      (v3FeeLoop oracle tin tout amt now ttl fees 0 ([] : Cache α) calls).1 = 0 := by
  induction fees with
  | nil => intro calls; rfl
  | cons fee rest ih =>
    intro calls
    rw [v3FeeLoop, cacheStep_all_fail oracle _ now ttl hfail]
    exact ih _

theorem v2BestLoop_all_fail (oracle : QuoteKey α → ℕ → Option ℕ)
    (amt now ttl : ℕ) (hfail : ∀ k i, oracle k i = none) (paths : List (List α)) :
    ∀ calls : ℕ,
      (v2BestLoop oracle amt now ttl paths 0 [] ([] : Cache α) calls).1 = (0, []) := by
  induction paths with
  | nil => intro calls; rfl
  | cons path rest ih =>
    intro calls
    rw [v2BestLoop, cacheStep_all_fail oracle _ now ttl hfail]
    exact ih _

/-- C7: the quoting entry points never surface an error: they are total
functions whose result on an unsupported venue is the zero quote
(`0` / `(0, [])` for the path variant), and when every underlying venue call
fails (no pool, insufficient liquidity, RPC failure — all raised exceptions)
the returned quote is again `0` (resp. `(0, [])`), so the scan loop
continues. -/
theorem C7_quote_errors_yield_zero (dex : String)
    (oracle : QuoteKey α → ℕ → Option ℕ) (tin tout : α) (hubs : List α)
    (v2MaxHops amt now ttl : ℕ) (cache : Cache α) :
    (dex ∉ ["UniswapV3", "SushiSwapV2", "QuickSwapV2"] →
      obter_preco_saida dex oracle tin tout amt now ttl cache = (0, cache, 0)) ∧
    (dex ∉ ["SushiSwapV2", "QuickSwapV2"] →
      obter_melhor_caminho_v2_e_quote dex oracle tin tout hubs v2MaxHops amt now ttl cache =
        ((0, []), cache, 0)) ∧
    ((∀ k i, oracle k i = none) →
      (obter_preco_saida dex oracle tin tout amt now ttl ([] : Cache α)).1 = 0) ∧
    ((∀ k i, oracle k i = none) →
      (obter_melhor_caminho_v2_e_quote dex oracle tin tout hubs v2MaxHops amt now ttl
        ([] : Cache α)).1 = (0, [])) := by
  refine ⟨fun hdex => ?_, fun hdex => ?_, fun hfail => ?_, fun hfail => ?_⟩
  · simp only [List.mem_cons, List.mem_singleton, not_or] at hdex
    unfold obter_preco_saida
    rw [if_neg hdex.1, if_neg (by simp [hdex.2.1, hdex.2.2])]
  · simp only [List.mem_cons, List.mem_singleton, not_or] at hdex
    unfold obter_melhor_caminho_v2_e_quote
    rw [if_neg (by simp [hdex.1, hdex.2])]
  · unfold obter_preco_saida
    by_cases h1 : dex = "UniswapV3"
    · rw [if_pos h1]
      exact v3FeeLoop_all_fail oracle tin tout amt now ttl hfail v3FeeTiers 0
    · rw [if_neg h1]
      by_cases h2 : dex = "SushiSwapV2" ∨ dex = "QuickSwapV2"
      · rw [if_pos h2, cacheStep_all_fail oracle _ now ttl hfail]
      · rw [if_neg h2]
  · unfold obter_melhor_caminho_v2_e_quote
    by_cases h2 : dex = "SushiSwapV2" ∨ dex = "QuickSwapV2"
    · rw [if_pos h2]
      exact v2BestLoop_all_fail oracle amt now ttl hfail _ 0
    · rw [if_neg h2]

/-- Witness for `C7_quote_errors_yield_zero`: an unsupported venue and an
always failing oracle. -/
theorem C7_quote_errors_yield_zero_witness :
    obter_preco_saida "Balancer" (fun (_ : QuoteKey ℕ) (_ : ℕ) => none) 0 1 5 10 2 [] =
        (0, [], 0) ∧
      obter_melhor_caminho_v2_e_quote "Balancer" (fun (_ : QuoteKey ℕ) (_ : ℕ) => none)
          0 1 [2] 1 5 10 2 [] = ((0, []), [], 0) ∧
      (obter_preco_saida "SushiSwapV2" (fun (_ : QuoteKey ℕ) (_ : ℕ) => none)
          0 1 5 10 2 ([] : Cache ℕ)).1 = 0 :=
  ⟨(C7_quote_errors_yield_zero "Balancer" (fun _ _ => none) 0 1 [2] 1 5 10 2 []).1
      (by decide),
    (C7_quote_errors_yield_zero "Balancer" (fun _ _ => none) 0 1 [2] 1 5 10 2 []).2.1
      (by decide),
    (C7_quote_errors_yield_zero "SushiSwapV2" (fun _ _ => none) 0 1 [2] 1 5 10 2 []).2.2.1
      (fun _ _ => rfl)⟩

/-- C10: the quote cache stores only strictly positive values — both quoting
entry points preserve the all-entries-positive invariant, for every venue,
oracle and starting cache; a fresh positive entry for the exact
(venue, route, amount) key is answered from the cache with no external call;
an absent (or stale) key — in particular any request whose previous result
was `0`, since zero results are never stored — triggers at least one fresh
external call, and if every attempt fails nothing is stored. -/
theorem C10_cache_only_positive (dex : String)
    (oracle : QuoteKey α → ℕ → Option ℕ) (tin tout : α) (hubs : List α)
    (v2MaxHops amt now ttl : ℕ) (cache : Cache α) :
    ((∀ e ∈ cache, 0 < e.2.2) →
      ∀ e ∈ (obter_preco_saida dex oracle tin tout amt now ttl cache).2.1, 0 < e.2.2) ∧
    ((∀ e ∈ cache, 0 < e.2.2) →
      ∀ e ∈ (obter_melhor_caminho_v2_e_quote dex oracle tin tout hubs v2MaxHops amt now
          ttl cache).2.1, 0 < e.2.2) ∧
    (∀ v, cache_get cache (QuoteKey.v2Path [tin, tout] amt) now ttl = some v →
      obter_preco_saida "SushiSwapV2" oracle tin tout amt now ttl cache = (v, cache, 0)) ∧
    (cache_get cache (QuoteKey.v2Path [tin, tout] amt) now ttl = none →
      1 ≤ (obter_preco_saida "SushiSwapV2" oracle tin tout amt now ttl cache).2.2 ∧
      ((∀ i, oracle (QuoteKey.v2Path [tin, tout] amt) i = none) →
        (obter_preco_saida "SushiSwapV2" oracle tin tout amt now ttl cache).2.1 = cache)) := by
  have hv2 : ∀ oracle' : QuoteKey α → ℕ → Option ℕ,
      obter_preco_saida "SushiSwapV2" oracle' tin tout amt now ttl cache =
        cacheStep oracle' (QuoteKey.v2Path [tin, tout] amt) now ttl cache := by
    intro oracle'
    unfold obter_preco_saida
    rw [if_neg (by decide), if_pos (Or.inl rfl)]
  refine ⟨fun h => ?_, fun h => ?_, fun v hget => ?_, fun hget => ?_⟩
  · unfold obter_preco_saida
    by_cases h1 : dex = "UniswapV3"
    · rw [if_pos h1]
      exact v3FeeLoop_preserves oracle tin tout amt now ttl v3FeeTiers 0 cache 0 h
    · rw [if_neg h1]
      by_cases h2 : dex = "SushiSwapV2" ∨ dex = "QuickSwapV2"
      · rw [if_pos h2]
        exact cacheStep_preserves oracle _ now ttl cache h
      · rw [if_neg h2]
        exact h
  · unfold obter_melhor_caminho_v2_e_quote
    by_cases h2 : dex = "SushiSwapV2" ∨ dex = "QuickSwapV2"
    · rw [if_pos h2]
      exact v2BestLoop_preserves oracle amt now ttl _ 0 [] cache 0 h
    · rw [if_neg h2]
      exact h
  · rw [hv2 oracle]
    exact cacheStep_hit oracle _ now ttl cache v hget
  · constructor
    · rw [hv2 oracle]
      exact (cacheStep_miss oracle _ now ttl cache hget).1
    · intro hfail
      rw [hv2 oracle, (cacheStep_miss oracle _ now ttl cache hget).2 hfail]

/-- Witness for `C10_cache_only_positive`: a cache holding one fresh
positive entry answers the matching request with no external call; with the
key absent, an always-failing oracle is called twice and stores nothing. -/
theorem C10_cache_only_positive_witness :
    obter_preco_saida "SushiSwapV2" (fun (_ : QuoteKey ℕ) (_ : ℕ) => none) 0 1 5 11 2
        [(QuoteKey.v2Path [0, 1] 5, 10, 7)] = (7, [(QuoteKey.v2Path [0, 1] 5, 10, 7)], 0) ∧
      (obter_preco_saida "SushiSwapV2" (fun (_ : QuoteKey ℕ) (_ : ℕ) => none)
        0 1 5 11 2 ([] : Cache ℕ)).2.1 = [] :=
  ⟨(C10_cache_only_positive "SushiSwapV2" (fun _ _ => none) 0 1 [] 1 5 11 2
      [(QuoteKey.v2Path [0, 1] 5, 10, 7)]).2.2.1 7 (by decide),
    ((C10_cache_only_positive "SushiSwapV2" (fun _ _ => none) 0 1 [] 1 5 11 2
      ([] : Cache ℕ)).2.2.2 (by decide)).2 (fun _ => rfl)⟩

end Quoting

end BotZeus
